import Mathlib

/-!
A verification development for the `jsonrpc-client-rs` core crate
(`src/core/src/lib.rs`): a transport-agnostic, strongly typed JSON-RPC 2.0
client engine.  The Rust source is shallowly embedded below: JSON values
(`serde_json::Value` restricted to the integer-number universe serde_json
represents exactly as `i64`/`u64`), the response validation pipeline
(`get_response_as_map`, `check_response_and_get_result`), the error
translator (`json_value_to_rpc_error`, modelling `jsonrpc_core`'s
`ErrorCode` deserialization), request construction (`format_request`),
the call engine (`call_method`) and the client state produced by the
`jsonrpc_client!` macro.  A character-level JSON codec mirroring
serde_json's compact serializer and strict parser is included so that
wire-level properties (round-trips, invalid-byte handling) are about
actual encoding and parsing, not an abstract identity.
-/

/-- JSON values, as `serde_json::Value`.  Numbers are restricted to the
integers that serde_json parses into its exact integer representations
(`i64` for negatives, `u64` for non-negatives); non-integer numbers, which
serde_json stores as `f64`, are outside this universe. -/
inductive Json where
  | null : Json
  | bool (b : Bool) : Json
  | num (n : Int) : Json
  | str (s : String) : Json
  | arr (items : List Json) : Json
  | obj (fields : List (String × Json)) : Json

theorem Json.sizeOf_pos (j : Json) : 0 < sizeOf j := by
  cases j <;> simp

theorem Json.sizeOf_lt_of_mem {x : Json} {xs : List Json} (h : x ∈ xs) :
    sizeOf x < sizeOf xs := by
  induction h with
  | head => simp; omega
  | tail _ _ ih => simp; omega

theorem Json.sizeOf_lt_of_mem_fields {kv : String × Json} {fs : List (String × Json)}
    (h : kv ∈ fs) : sizeOf kv.2 < sizeOf fs := by
  induction h with
  | head =>
    obtain ⟨k, v⟩ := kv
    simp
    omega
  | tail _ _ ih => simp; omega

/-- Structural induction for `Json` with memberships for the nested lists. -/
theorem Json.inductionOn (P : Json → Prop)
    (hnull : P .null)
    (hbool : ∀ b, P (.bool b))
    (hnum : ∀ n, P (.num n))
    (hstr : ∀ s, P (.str s))
    (harr : ∀ xs, (∀ x, x ∈ xs → P x) → P (.arr xs))
    (hobj : ∀ fs, (∀ kv, kv ∈ fs → P kv.2) → P (.obj fs)) :
    ∀ j, P j := by
  suffices h : ∀ n j, sizeOf j ≤ n → P j by
    intro j
    exact h (sizeOf j) j le_rfl
  intro n
  induction n with
  | zero =>
    intro j hj
    have := Json.sizeOf_pos j
    omega
  | succ n ih =>
    intro j hj
    cases j with
    | null => exact hnull
    | bool b => exact hbool b
    | num m => exact hnum m
    | str s => exact hstr s
    | arr xs =>
      refine harr xs (fun x hx => ih x ?_)
      have h1 := Json.sizeOf_lt_of_mem hx
      simp at hj
      omega
    | obj fs =>
      refine hobj fs (fun kv hkv => ih kv.2 ?_)
      have h1 := Json.sizeOf_lt_of_mem_fields hkv
      simp at hj
      omega

mutual

/-- Structural equality of JSON values (`PartialEq` on `serde_json::Value`). -/
def Json.beq : Json → Json → Bool
  | .null, .null => true
  | .bool a, .bool b => a == b
  | .num a, .num b => a == b
  | .str a, .str b => a == b
  | .arr xs, .arr ys => Json.beqItems xs ys
  | .obj xs, .obj ys => Json.beqFields xs ys
  | _, _ => false

/-- Elementwise equality of JSON arrays. -/
def Json.beqItems : List Json → List Json → Bool
  | [], [] => true
  | x :: xs, y :: ys => Json.beq x y && Json.beqItems xs ys
  | _, _ => false

/-- Entrywise equality of JSON objects (key and value). -/
def Json.beqFields : List (String × Json) → List (String × Json) → Bool
  | [], [] => true
  | (k, v) :: xs, (k', v') :: ys => k == k' && Json.beq v v' && Json.beqFields xs ys
  | _, _ => false

end

theorem Json.beq_eq_true_iff : ∀ a b : Json, Json.beq a b = true ↔ a = b := by
  intro a
  induction a using Json.inductionOn with
  | hnull => intro b; cases b <;> simp [Json.beq]
  | hbool x => intro b; cases b <;> simp [Json.beq]
  | hnum x => intro b; cases b <;> simp [Json.beq]
  | hstr x => intro b; cases b <;> simp [Json.beq]
  | harr xs ih =>
    intro b
    cases b with
    | arr ys =>
      simp only [Json.beq, Json.arr.injEq]
      induction xs generalizing ys with
      | nil => cases ys <;> simp [Json.beqItems]
      | cons x xs ihl =>
        cases ys with
        | nil => simp [Json.beqItems]
        | cons y ys =>
          simp only [Json.beqItems, Bool.and_eq_true, List.cons.injEq]
          rw [ih x (List.mem_cons_self x xs) y,
            ihl (fun z hz => ih z (List.mem_cons_of_mem x hz)) ys]
    | null => simp [Json.beq]
    | bool y => simp [Json.beq]
    | num y => simp [Json.beq]
    | str y => simp [Json.beq]
    | obj fs => simp [Json.beq]
  | hobj fs ih =>
    intro b
    cases b with
    | obj gs =>
      simp only [Json.beq, Json.obj.injEq]
      induction fs generalizing gs with
      | nil => cases gs <;> simp [Json.beqFields]
      | cons kv fs ihl =>
        obtain ⟨k, v⟩ := kv
        cases gs with
        | nil => simp [Json.beqFields]
        | cons kv' gs =>
          obtain ⟨k', v'⟩ := kv'
          have hv : ∀ b : Json, Json.beq v b = true ↔ v = b :=
            fun b => ih (k, v) (List.mem_cons_self (k, v) fs) b
          simp only [Json.beqFields, Bool.and_eq_true, List.cons.injEq, Prod.mk.injEq,
            beq_iff_eq]
          rw [hv v', ihl (fun z hz => ih z (List.mem_cons_of_mem (k, v) hz)) gs]
    | null => simp [Json.beq]
    | bool y => simp [Json.beq]
    | num y => simp [Json.beq]
    | str y => simp [Json.beq]
    | arr ys => simp [Json.beq]

instance : DecidableEq Json := fun a b =>
  decidable_of_iff (Json.beq a b = true) (Json.beq_eq_true_iff a b)

/-- A parsed JSON object, as `serde_json::Map<String, Value>`: an
association of field names to values (parsed objects have distinct keys). -/
abbrev JsonMap := List (String × Json)

/-- `Map::get`: the value at the first matching key, if any. -/
def lookupField (k : String) : JsonMap → Option Json
  | [] => none
  | (k', v) :: rest => if k' = k then some v else lookupField k rest

/-- `Map::remove`: the value at the first matching key, together with the
map with that entry taken out. -/
def removeField (k : String) : JsonMap → Option Json × JsonMap
  | [] => (none, [])
  | (k', v) :: rest =>
    if k' = k then (some v, rest)
    else
      let r := removeField k rest
      (r.1, (k', v) :: r.2)

theorem removeField_fst (k : String) :
    ∀ m : JsonMap, (removeField k m).1 = lookupField k m := by
  intro m
  induction m with
  | nil => rfl
  | cons kv rest ih =>
    obtain ⟨k', v⟩ := kv
    simp only [removeField, lookupField]
    by_cases h : k' = k <;> simp [h, ih]

theorem lookupField_removeField_ne (k k' : String) (hne : k ≠ k') :
    ∀ m : JsonMap, lookupField k' (removeField k m).2 = lookupField k' m := by
  intro m
  induction m with
  | nil => rfl
  | cons kv rest ih =>
    obtain ⟨k0, v⟩ := kv
    by_cases h : k0 = k
    · subst h
      simp [removeField, lookupField, hne]
    · simp only [removeField, if_neg h, lookupField]
      by_cases h2 : k0 = k'
      · simp [h2]
      · simp [h2, ih]

/-- `jsonrpc_core::types::error::ErrorCode`: well-known JSON-RPC 2.0 error
codes as a named enumeration, any other code as the opaque
`ServerError` variant. -/
inductive ErrorCode where
  | ParseError : ErrorCode
  | InvalidRequest : ErrorCode
  | MethodNotFound : ErrorCode
  | InvalidParams : ErrorCode
  | InternalError : ErrorCode
  | ServerError (c : Int) : ErrorCode
  deriving DecidableEq

/-- `ErrorCode::from(i64)` in jsonrpc_core. -/
def ErrorCode.fromInt (n : Int) : ErrorCode :=
  if n = -32700 then .ParseError
  else if n = -32600 then .InvalidRequest
  else if n = -32601 then .MethodNotFound
  else if n = -32602 then .InvalidParams
  else if n = -32603 then .InternalError
  else .ServerError n

/-- `ErrorCode::code()` in jsonrpc_core: the numeric value of the code. -/
def ErrorCode.code : ErrorCode → Int
  | .ParseError => -32700
  | .InvalidRequest => -32600
  | .MethodNotFound => -32601
  | .InvalidParams => -32602
  | .InternalError => -32603
  | .ServerError c => c

/-- `serde_json::from_value::<ErrorCode>`: jsonrpc_core deserializes an
`ErrorCode` by reading the JSON value as a signed 64-bit integer
(serde_json's `as_i64`) and applying `ErrorCode::from`; any non-number,
and any integer outside the `i64` range (serde_json stores integers in
`(i64::MAX, u64::MAX]` as `u64`, on which `as_i64` returns `None`),
fails to deserialize. -/
def deserialize_error_code (j : Json) : Option ErrorCode :=
  match j with
  | .num n =>
    if -9223372036854775808 ≤ n ∧ n < 9223372036854775808 then some (ErrorCode.fromInt n)
    else none
  | _ => none

/-- `jsonrpc_core::types::error::Error`: a structured JSON-RPC 2.0 error
object. -/
structure RpcError where
  code : ErrorCode
  message : String
  data : Option Json
  deriving DecidableEq

/-- The `ErrorKind` enumeration declared by the `error_chain!` block of the
crate.  `ResponseError` carries its static message; chained causes are not
modelled (`chain_err` sets the outer kind, which is all the claims are
about). -/
inductive ErrorKind where
  | TransportError : ErrorKind
  | SerializeError : ErrorKind
  | ResponseError (msg : String) : ErrorKind
  | JsonRpcError (e : RpcError) : ErrorKind
  deriving DecidableEq

instance {e a : Type} [DecidableEq e] [DecidableEq a] : DecidableEq (Except e a) := fun x y =>
  match x, y with
  | .ok x, .ok y => if h : x = y then isTrue (by rw [h]) else isFalse (by simp [h])
  | .error x, .error y => if h : x = y then isTrue (by rw [h]) else isFalse (by simp [h])
  | .ok _, .error _ => isFalse (by simp)
  | .error _, .ok _ => isFalse (by simp)

/-- `json_value_to_rpc_error`: translates the JSON value of an `error`
field into a structured `RpcError`.  The `code` entry is removed and
deserialized first, then `message` is read (`get` + `as_str`, not
removed), then `data` is removed (optional). -/
def json_value_to_rpc_error (error_json : Json) : Except ErrorKind RpcError :=
  match error_json with
  | .obj map =>
    match removeField "code" map with
    | (none, _) => .error (.ResponseError "Error has no code field")
    | (some code_json, map1) =>
      match deserialize_error_code code_json with
      | none => .error (.ResponseError "Malformed code field in error")
      | some code =>
        match lookupField "message" map1 with
        | some (.str message) =>
          .ok { code := code, message := message, data := (removeField "data" map1).1 }
        | _ => .error (.ResponseError "Error has no message field of string type")
  | _ => .error (.ResponseError "Error is not a json object")

/-- `check_response_and_get_result`: validates a parsed response object
against the request id and extracts the `result` value.  Checks run in
source order: `jsonrpc` version tag, then `id`, then `error`
(short-circuiting into a `JsonRpcError`, or, when the error object itself
is malformed, a `ResponseError` via `chain_err`), then `result`. -/
def check_response_and_get_result (response_map : JsonMap) (expected_id : Nat) :
    Except ErrorKind Json :=
  let rm1 := removeField "jsonrpc" response_map
  if rm1.1 = some (Json.str "2.0") then
    let rm2 := removeField "id" rm1.2
    if rm2.1 = some (Json.num (expected_id : Int)) then
      match removeField "error" rm2.2 with
      | (some error_json, _) =>
        match json_value_to_rpc_error error_json with
        | .ok error => .error (.JsonRpcError error)
        | .error _ => .error (.ResponseError "Malformed error object")
      | (none, rm3) =>
        match removeField "result" rm3 with
        | (some result, _) => .ok result
        | (none, _) => .error (.ResponseError "Response has no \x22result\x22 field")
    else .error (.ResponseError "Response id not equal to request id")
  else .error (.ResponseError "Response is not JSON-RPC 2.0 compatible")

/-- `format_request`: builds the JSON-RPC 2.0 request envelope.  The
`json!` macro converts the `params` expression with
`serde_json::to_value(...).unwrap()`: a `Serialize` implementation that
fails makes the macro panic (modelled by propagating `none`); no error
value is returned.  serde_json's map is a `BTreeMap`, so the envelope
would serialize its keys in sorted order; the association list below keeps
the literal order of the `json!` block, which no lookup distinguishes. -/
def format_request (id : Nat) (method : String) (params : Option Json) : Option Json :=
  match params with
  | none => none
  | some p =>
    some (Json.obj [("jsonrpc", Json.str "2.0"), ("id", Json.num (id : Int)),
      ("method", Json.str method), ("params", p)])

/-- The `jsonrpc_client!` macro packs the declared arguments of a method
into a Rust tuple `($($arg_name,)*)`.  serde serializes an `n`-tuple
(`n ≥ 1`) as a JSON array of the serialized arguments in declaration
order, and the empty tuple `()` (a zero-argument method) as JSON `null`. -/
def serialize_args_tuple (args : List Json) : Json :=
  match args with
  | [] => Json.null
  | xs => Json.arr xs

/-- `check_response_and_get_result` consumes its map with sequential
`remove` calls; this characterizes it by plain lookups on the original
map. -/
theorem check_response_eq_lookup_form (m : JsonMap) (eid : Nat) :
    check_response_and_get_result m eid =
      if lookupField "jsonrpc" m = some (Json.str "2.0") then
        if lookupField "id" m = some (Json.num (eid : Int)) then
          match lookupField "error" m with
          | some error_json =>
            match json_value_to_rpc_error error_json with
            | .ok error => .error (.JsonRpcError error)
            | .error _ => .error (.ResponseError "Malformed error object")
          | none =>
            match lookupField "result" m with
            | some result => .ok result
            | none => .error (.ResponseError "Response has no \x22result\x22 field")
        else .error (.ResponseError "Response id not equal to request id")
      else .error (.ResponseError "Response is not JSON-RPC 2.0 compatible") := by
  simp only [check_response_and_get_result, removeField_fst,
    lookupField_removeField_ne "jsonrpc" "id" (by decide)]
  by_cases h1 : lookupField "jsonrpc" m = some (Json.str "2.0")
  · rw [if_pos h1, if_pos h1]
    by_cases h2 : lookupField "id" m = some (Json.num (eid : Int))
    · rw [if_pos h2, if_pos h2]
      cases hrm : removeField "error" (removeField "id" (removeField "jsonrpc" m).2).2 with
      | mk o rm3 =>
        have ho : o = lookupField "error" m := by
          have hfst := removeField_fst "error"
            (removeField "id" (removeField "jsonrpc" m).2).2
          rw [hrm] at hfst
          simpa [lookupField_removeField_ne "id" "error" (by decide),
            lookupField_removeField_ne "jsonrpc" "error" (by decide)] using hfst
        rw [← ho]
        cases o with
        | some e => rfl
        | none =>
          dsimp only
          have hres : (removeField "result" rm3).1 = lookupField "result" m := by
            have hsnd : rm3 = (removeField "error"
                (removeField "id" (removeField "jsonrpc" m).2).2).2 := by
              rw [hrm]
            rw [removeField_fst, hsnd,
              lookupField_removeField_ne "error" "result" (by decide),
              lookupField_removeField_ne "id" "result" (by decide),
              lookupField_removeField_ne "jsonrpc" "result" (by decide)]
          cases hrm2 : removeField "result" rm3 with
          | mk o2 rest2 =>
            rw [hrm2] at hres
            simp only at hres
            rw [← hres]
            cases o2 <;> rfl
    · rw [if_neg h2, if_neg h2]
  · rw [if_neg h1, if_neg h1]

/-- `json_value_to_rpc_error` on an object, characterized by plain lookups
on the field list. -/
theorem rpc_error_eq_lookup_form (fs : JsonMap) :
    json_value_to_rpc_error (.obj fs) =
      match lookupField "code" fs with
      | none => .error (.ResponseError "Error has no code field")
      | some code_json =>
        match deserialize_error_code code_json with
        | none => .error (.ResponseError "Malformed code field in error")
        | some code =>
          match lookupField "message" fs with
          | some (.str message) =>
            .ok { code := code, message := message, data := lookupField "data" fs }
          | _ => .error (.ResponseError "Error has no message field of string type") := by
  simp only [json_value_to_rpc_error]
  cases hrm : removeField "code" fs with
  | mk o map1 =>
    have ho : o = lookupField "code" fs := by
      have h := removeField_fst "code" fs
      rw [hrm] at h
      simpa using h
    have hmap1 : map1 = (removeField "code" fs).2 := by rw [hrm]
    rw [← ho]
    cases o with
    | none => rfl
    | some code_json =>
      dsimp only
      cases deserialize_error_code code_json with
      | none => rfl
      | some code =>
        dsimp only
        rw [hmap1, lookupField_removeField_ne "code" "message" (by decide),
          removeField_fst, lookupField_removeField_ne "code" "data" (by decide)]

/-- C2: version is checked first — any parsed response object whose
`jsonrpc` field is absent or not the string "2.0" fails with the
protocol-version `ResponseError` no matter what the other fields hold;
and with the version tag in place, an `id` mismatch fails with the
id `ResponseError` before the `error` field is ever inspected. -/
theorem version_check_precedes_id_and_error_checks (m : JsonMap) (eid : Nat) :
    (lookupField "jsonrpc" m ≠ some (Json.str "2.0") →
      check_response_and_get_result m eid =
        .error (.ResponseError "Response is not JSON-RPC 2.0 compatible")) ∧
    (lookupField "jsonrpc" m = some (Json.str "2.0") →
      lookupField "id" m ≠ some (Json.num (eid : Int)) →
      check_response_and_get_result m eid =
        .error (.ResponseError "Response id not equal to request id")) := by
  rw [check_response_eq_lookup_form]
  constructor
  · intro h
    rw [if_neg h]
  · intro h1 h2
    rw [if_pos h1, if_neg h2]

theorem version_check_precedes_id_and_error_checks_witness :
    check_response_and_get_result
        [("id", Json.num 1), ("error", Json.str "x"), ("result", Json.num 7)] 1 =
      .error (.ResponseError "Response is not JSON-RPC 2.0 compatible") ∧
    check_response_and_get_result
        [("jsonrpc", Json.str "2.0"), ("id", Json.num 2), ("error", Json.str "x")] 1 =
      .error (.ResponseError "Response id not equal to request id") :=
  ⟨(version_check_precedes_id_and_error_checks _ 1).1 (by decide),
   (version_check_precedes_id_and_error_checks _ 1).2 (by decide) (by decide)⟩

/-- C3: when the version tag and id match and an `error` field is present
and translates to a well-formed `RpcError`, the outcome is that
`JsonRpcError`, whatever the `result` field holds — the map `m` is
arbitrary, so the `result` entry never influences the outcome. -/
theorem error_field_precedence_over_result (m : JsonMap) (eid : Nat) (e : Json)
    (err : RpcError)
    (hv : lookupField "jsonrpc" m = some (Json.str "2.0"))
    (hid : lookupField "id" m = some (Json.num (eid : Int)))
    (he : lookupField "error" m = some e)
    (ht : json_value_to_rpc_error e = .ok err) :
    check_response_and_get_result m eid = .error (.JsonRpcError err) := by
  rw [check_response_eq_lookup_form, if_pos hv, if_pos hid, he]
  simp [ht]

theorem error_field_precedence_over_result_witness :
    check_response_and_get_result
        [("jsonrpc", Json.str "2.0"), ("id", Json.num 1),
         ("error", Json.obj [("code", Json.num (-32600)), ("message", Json.str "bad")]),
         ("result", Json.num 5)] 1 =
      .error (.JsonRpcError ⟨.InvalidRequest, "bad", none⟩) :=
  error_field_precedence_over_result _ 1
    (Json.obj [("code", Json.num (-32600)), ("message", Json.str "bad")])
    ⟨.InvalidRequest, "bad", none⟩ (by decide) (by decide) (by decide) (by decide)

/-- C10: with the version tag in place, a response with no `id` field at
all and a response whose `id` differs from the request id fail with the
same `ResponseError`: `remove("id")` returns `None` in the first case and
a non-matching `Some` in the second, and the single equality test against
`Some(expected_id)` fails either way. -/
theorem missing_id_fails_like_mismatched_id (m : JsonMap) (eid : Nat)
    (hv : lookupField "jsonrpc" m = some (Json.str "2.0")) :
    (lookupField "id" m = none →
      check_response_and_get_result m eid =
        .error (.ResponseError "Response id not equal to request id")) ∧
    (∀ j, lookupField "id" m = some j → j ≠ Json.num (eid : Int) →
      check_response_and_get_result m eid =
        .error (.ResponseError "Response id not equal to request id")) := by
  rw [check_response_eq_lookup_form]
  constructor
  · intro h
    rw [if_pos hv, if_neg (by simp [h])]
  · intro j hj hne
    rw [if_pos hv, if_neg (by simp [hj, hne])]

theorem missing_id_fails_like_mismatched_id_witness :
    check_response_and_get_result
        [("jsonrpc", Json.str "2.0"), ("result", Json.num 7)] 1 =
      .error (.ResponseError "Response id not equal to request id") ∧
    check_response_and_get_result
        [("jsonrpc", Json.str "2.0"), ("id", Json.num 2), ("result", Json.num 7)] 1 =
      .error (.ResponseError "Response id not equal to request id") :=
  ⟨(missing_id_fails_like_mismatched_id _ 1 (by decide)).1 (by decide),
   (missing_id_fails_like_mismatched_id _ 1 (by decide)).2 (Json.num 2)
     (by decide) (by decide)⟩

theorem ErrorCode.code_fromInt (n : Int) : (ErrorCode.fromInt n).code = n := by
  unfold ErrorCode.fromInt
  split_ifs with h1 h2 h3 h4 h5 <;> simp [ErrorCode.code, *]

/-- C6 counterexample: the integer 2^63 = 9223372036854775808 is an
integer-typed `code` value (serde_json parses it exactly, as a `u64`
number), yet translation fails, because jsonrpc_core deserializes
`ErrorCode` by reading the value as an `i64`. -/
theorem error_translator_i64_overflow_counterexample :
    json_value_to_rpc_error (Json.obj
        [("code", Json.num 9223372036854775808), ("message", Json.str "boom")]) =
      .error (.ResponseError "Malformed code field in error") := by decide

/-- C6 (amended): on an object input, translation succeeds exactly on a
`code` field holding an integer in the `i64` range together with a
string-typed `message` field, yielding the mapped code (whose numeric
value is the original integer), that message, and the `data` field's
value when present; a missing code, a code that is not an integer in the
`i64` range, and a missing or non-string message each yield a
`ResponseError`. -/
theorem error_translator_code_message_data (fs : JsonMap) :
    (∀ n msg, lookupField "code" fs = some (Json.num n) →
      -9223372036854775808 ≤ n → n < 9223372036854775808 →
      lookupField "message" fs = some (Json.str msg) →
      json_value_to_rpc_error (.obj fs) =
        .ok { code := ErrorCode.fromInt n, message := msg,
              data := lookupField "data" fs } ∧
      (ErrorCode.fromInt n).code = n) ∧
    (lookupField "code" fs = none →
      json_value_to_rpc_error (.obj fs) =
        .error (.ResponseError "Error has no code field")) ∧
    (∀ c, lookupField "code" fs = some c →
      (∀ n : Int, -9223372036854775808 ≤ n → n < 9223372036854775808 →
        c ≠ Json.num n) →
      json_value_to_rpc_error (.obj fs) =
        .error (.ResponseError "Malformed code field in error")) ∧
    (∀ n, lookupField "code" fs = some (Json.num n) →
      -9223372036854775808 ≤ n → n < 9223372036854775808 →
      (∀ s, lookupField "message" fs ≠ some (Json.str s)) →
      json_value_to_rpc_error (.obj fs) =
        .error (.ResponseError "Error has no message field of string type")) := by
  rw [rpc_error_eq_lookup_form]
  refine ⟨?_, ?_, ?_, ?_⟩
  · intro n msg hc h1 h2 hm
    refine ⟨?_, ErrorCode.code_fromInt n⟩
    rw [hc, hm]
    simp only [deserialize_error_code, if_pos (And.intro h1 h2)]
  · intro hc
    rw [hc]
  · intro c hc hnot
    have hd : deserialize_error_code c = none := by
      cases c with
      | num n =>
        by_cases hr : -9223372036854775808 ≤ n ∧ n < 9223372036854775808
        · exact absurd rfl (hnot n hr.1 hr.2)
        · simp [deserialize_error_code, hr]
      | null => rfl
      | bool b => rfl
      | str s => rfl
      | arr xs => rfl
      | obj gs => rfl
    rw [hc]
    dsimp only
    rw [hd]
  · intro n hc h1 h2 hm
    rw [hc]
    dsimp only
    simp only [deserialize_error_code, if_pos (And.intro h1 h2)]

theorem error_translator_code_message_data_witness :
    (json_value_to_rpc_error (Json.obj
        [("code", Json.num (-32601)), ("message", Json.str "nope"),
         ("data", Json.arr [Json.num 1])]) =
      .ok { code := .MethodNotFound, message := "nope",
            data := some (Json.arr [Json.num 1]) } ∧
      (ErrorCode.fromInt (-32601)).code = -32601) ∧
    json_value_to_rpc_error (Json.obj [("message", Json.str "nope")]) =
      .error (.ResponseError "Error has no code field") :=
  ⟨(error_translator_code_message_data _).1 (-32601) "nope" (by decide) (by decide)
      (by decide) (by decide),
   (error_translator_code_message_data _).2.1 (by decide)⟩

/-- C5: contrary to the claim, a zero-argument generated method does not
send `params: []`: the macro packs the arguments into the unit tuple
`()`, which serde serializes as JSON `null`, so the request envelope of
e.g. `ExampleRpcClient::nullary()` carries `params: null`. -/
theorem zero_arg_method_params_serializes_as_null :
    format_request 1 "nullary" (some (serialize_args_tuple [])) =
      some (Json.obj [("jsonrpc", Json.str "2.0"), ("id", Json.num 1),
        ("method", Json.str "nullary"), ("params", Json.null)]) ∧
    serialize_args_tuple [] = Json.null ∧ Json.null ≠ Json.arr [] :=
  ⟨rfl, rfl, by decide⟩

/-- Decimal digit character. -/
def digitChar : Nat → Char
  | 0 => '0' | 1 => '1' | 2 => '2' | 3 => '3' | 4 => '4'
  | 5 => '5' | 6 => '6' | 7 => '7' | 8 => '8' | _ => '9'

/-- Lowercase hexadecimal digit character (serde_json emits lowercase hex
in `\u00XX` escapes). -/
def hexDigitChar : Nat → Char
  | 0 => '0' | 1 => '1' | 2 => '2' | 3 => '3' | 4 => '4'
  | 5 => '5' | 6 => '6' | 7 => '7' | 8 => '8' | 9 => '9'
  | 10 => 'a' | 11 => 'b' | 12 => 'c' | 13 => 'd' | 14 => 'e' | _ => 'f'

/-- The decimal digits of a natural number, most significant first; the
fuel argument only bounds the recursion depth (one digit per step) and
`natDigits` supplies more than enough. -/
def natDigitsAux : Nat → Nat → List Char
  | 0, _ => []
  | fuel + 1, n =>
    if n < 10 then [digitChar n]
    else natDigitsAux fuel (n / 10) ++ [digitChar (n % 10)]

/-- The decimal digits of a natural number, most significant first. -/
def natDigits (n : Nat) : List Char := natDigitsAux (n + 1) n

/-- serde_json writes an integer `Number` in plain decimal notation. -/
def encodeInt (n : Int) : List Char :=
  if n < 0 then '-' :: natDigits n.natAbs else natDigits n.toNat

/-- serde_json's escape table for characters inside a JSON string: quote
and backslash get two-character escapes, the five named control characters
get their short escapes, the remaining control characters get `\u00XX`,
and everything else is written as itself. -/
def escapeChar (c : Char) : List Char :=
  if c = '"' then ['\\', '"']
  else if c = '\\' then ['\\', '\\']
  else if c = Char.ofNat 8 then ['\\', 'b']
  else if c = Char.ofNat 9 then ['\\', 't']
  else if c = Char.ofNat 10 then ['\\', 'n']
  else if c = Char.ofNat 12 then ['\\', 'f']
  else if c = Char.ofNat 13 then ['\\', 'r']
  else if c.toNat < 32 then
    ['\\', 'u', '0', '0', hexDigitChar (c.toNat / 16), hexDigitChar (c.toNat % 16)]
  else [c]

def encodeStringBody : List Char → List Char
  | [] => []
  | c :: cs => escapeChar c ++ encodeStringBody cs

def encodeString (s : String) : List Char := '"' :: (encodeStringBody s.data ++ ['"'])

mutual

/-- serde_json's compact serializer (`serde_json::to_vec`) for the
integer-number universe: no whitespace, fields in list order. -/
def encodeJson : Json → List Char
  | .null => "null".data
  | .bool true => "true".data
  | .bool false => "false".data
  | .num n => encodeInt n
  | .str s => encodeString s
  | .arr xs => '[' :: (encodeItems xs ++ [']'])
  | .obj fs => '\x7b' :: (encodeFields fs ++ ['\x7d'])

def encodeItems : List Json → List Char
  | [] => []
  | [x] => encodeJson x
  | x :: xs => encodeJson x ++ ',' :: encodeItems xs

def encodeFields : List (String × Json) → List Char
  | [] => []
  | [(k, v)] => encodeString k ++ ':' :: encodeJson v
  | (k, v) :: fs => encodeString k ++ ':' :: encodeJson v ++ ',' :: encodeFields fs

end

/-- JSON whitespace accepted by serde_json: space, tab, newline, carriage
return. -/
def isWsChar (c : Char) : Bool :=
  c.toNat = 32 || c.toNat = 9 || c.toNat = 10 || c.toNat = 13

def skipWs : List Char → List Char
  | [] => []
  | c :: cs => if isWsChar c then skipWs cs else c :: cs

def isDigitChar (c : Char) : Bool := 48 ≤ c.toNat && c.toNat ≤ 57

def digitVal (c : Char) : Nat := c.toNat - 48

def hexVal (c : Char) : Option Nat :=
  if 48 ≤ c.toNat ∧ c.toNat ≤ 57 then some (c.toNat - 48)
  else if 97 ≤ c.toNat ∧ c.toNat ≤ 102 then some (c.toNat - 87)
  else if 65 ≤ c.toNat ∧ c.toNat ≤ 70 then some (c.toNat - 55)
  else none

/-- The body of a JSON string after the opening quote: ordinary
characters, the two-character escapes, and 4-digit `\uXXXX` escapes for
non-surrogate code points (surrogate-pair recombination is not modelled:
the serializer never emits escapes above `\u001f`); raw control
characters are rejected, as serde_json does. -/
def parseStringBody : List Char → List Char → Option (String × List Char)
  | [], _ => none
  | '"' :: cs, acc => some (String.mk acc, cs)
  | '\\' :: 'u' :: h1 :: h2 :: h3 :: h4 :: cs, acc =>
    match hexVal h1, hexVal h2, hexVal h3, hexVal h4 with
    | some a, some b, some c1, some d =>
      let n := ((a * 16 + b) * 16 + c1) * 16 + d
      if n < 55296 ∨ 57343 < n then parseStringBody cs (acc ++ [Char.ofNat n])
      else none
    | _, _, _, _ => none
  | '\\' :: e :: cs, acc =>
    if e = '"' then parseStringBody cs (acc ++ ['"'])
    else if e = '\\' then parseStringBody cs (acc ++ ['\\'])
    else if e = '/' then parseStringBody cs (acc ++ ['/'])
    else if e = 'b' then parseStringBody cs (acc ++ [Char.ofNat 8])
    else if e = 't' then parseStringBody cs (acc ++ [Char.ofNat 9])
    else if e = 'n' then parseStringBody cs (acc ++ [Char.ofNat 10])
    else if e = 'f' then parseStringBody cs (acc ++ [Char.ofNat 12])
    else if e = 'r' then parseStringBody cs (acc ++ [Char.ofNat 13])
    else none
  | c :: cs, acc => if c.toNat < 32 then none else parseStringBody cs (acc ++ [c])

def takeDigits : List Char → List Char × List Char
  | [] => ([], [])
  | c :: cs =>
    if isDigitChar c then
      let r := takeDigits cs
      (c :: r.1, r.2)
    else ([], c :: cs)

def digitsToNat (ds : List Char) : Nat := ds.foldl (fun a c => 10 * a + digitVal c) 0

/-- An unsigned decimal integer literal; serde_json rejects redundant
leading zeros. -/
def parseNatNum : List Char → Option (Nat × List Char)
  | [] => none
  | c :: cs =>
    if c = '0' then
      match cs with
      | c' :: _ => if isDigitChar c' then none else some (0, cs)
      | [] => some (0, [])
    else
      match takeDigits (c :: cs) with
      | ([], _) => none
      | (ds, rest) => some (digitsToNat ds, rest)

/-- A JSON number within serde_json's exact-integer universe: an optional
minus sign and a decimal literal, provided the value fits in `i64` (when
negative) or `u64` (when non-negative).  Anything else — a fractional
part, an exponent, an out-of-range magnitude, or `-0` — serde_json
represents as `f64`, which is outside the modelled universe, so parsing
fails here (at top level serde_json's grammar would accept some of those
inputs as floats). -/
def parseNumber : List Char → Option (Json × List Char)
  | [] => none
  | c :: cs =>
    if c = '-' then
      match parseNatNum cs with
      | some (n, rest) =>
        if 1 ≤ n ∧ (n : Int) ≤ 9223372036854775808 then
          some (.num (-(n : Int)), rest)
        else none
      | none => none
    else
      match parseNatNum (c :: cs) with
      | some (n, rest) =>
        if (n : Int) < 18446744073709551616 then some (.num (n : Int), rest) else none
      | none => none

mutual

/-- One JSON value, by recursive descent.  The fuel argument bounds the
recursion depth; one unit is spent per value and per comma, each against
at least one consumed input character, so `parseJson`'s `length + 1` never
runs out. -/
def parseValue : Nat → List Char → Option (Json × List Char)
  | 0, _ => none
  | fuel + 1, cs =>
    match skipWs cs with
    | [] => none
    | c :: rest =>
      if c = '"' then
        match parseStringBody rest [] with
        | some (s, rest') => some (.str s, rest')
        | none => none
      else if c = '[' then
        match skipWs rest with
        | [] => none
        | c2 :: rest2 =>
          if c2 = ']' then some (.arr [], rest2)
          else
            match parseItems fuel (c2 :: rest2) with
            | some (vs, rest') => some (.arr vs, rest')
            | none => none
      else if c = '\x7b' then
        match skipWs rest with
        | [] => none
        | c2 :: rest2 =>
          if c2 = '\x7d' then some (.obj [], rest2)
          else
            match parseFields fuel (c2 :: rest2) with
            | some (fs, rest') => some (.obj fs, rest')
            | none => none
      else if c = 't' then
        match rest with
        | 'r' :: 'u' :: 'e' :: rest' => some (.bool true, rest')
        | _ => none
      else if c = 'f' then
        match rest with
        | 'a' :: 'l' :: 's' :: 'e' :: rest' => some (.bool false, rest')
        | _ => none
      else if c = 'n' then
        match rest with
        | 'u' :: 'l' :: 'l' :: rest' => some (.null, rest')
        | _ => none
      else parseNumber (c :: rest)

/-- One or more comma-separated array items, up to the closing `]`.
serde_json keeps the last value for a duplicated object key; duplicates
are kept in textual order by `parseFields`, which no claim distinguishes
(parsed test inputs have distinct keys). -/
def parseItems : Nat → List Char → Option (List Json × List Char)
  | 0, _ => none
  | fuel + 1, cs =>
    match parseValue fuel cs with
    | none => none
    | some (v, rest) =>
      match skipWs rest with
      | ',' :: rest' =>
        match parseItems fuel rest' with
        | some (vs, rest'') => some (v :: vs, rest'')
        | none => none
      | ']' :: rest' => some ([v], rest')
      | _ => none

/-- One or more `"key": value` object entries, up to the closing brace. -/
def parseFields : Nat → List Char → Option (List (String × Json) × List Char)
  | 0, _ => none
  | fuel + 1, cs =>
    match skipWs cs with
    | [] => none
    | c :: rest =>
      if c = '"' then
        match parseStringBody rest [] with
        | some (k, rest1) =>
          match skipWs rest1 with
          | ':' :: rest2 =>
            match parseValue fuel rest2 with
            | some (v, rest3) =>
              match skipWs rest3 with
              | ',' :: rest4 =>
                match parseFields fuel rest4 with
                | some (fs, rest5) => some ((k, v) :: fs, rest5)
                | none => none
              | c5 :: rest4 =>
                if c5 = '\x7d' then some ([(k, v)], rest4) else none
              | [] => none
            | none => none
          | _ => none
        | none => none
      else none

end

/-- `serde_json::from_slice` restricted to the integer-number universe:
parse one JSON value and require only whitespace to follow. -/
def parseJson (cs : List Char) : Option Json :=
  match parseValue (cs.length + 1) cs with
  | some (v, rest) => if (skipWs rest).isEmpty then some v else none
  | none => none

/-- `get_response_as_map`: parse the raw response bytes as JSON and
require a top-level object. -/
def get_response_as_map (response : List Char) : Except ErrorKind JsonMap :=
  match parseJson response with
  | none => .error (.ResponseError "Response is not valid json")
  | some (Json.obj map) => .ok map
  | some _ => .error (.ResponseError "Response is not a json object")

/-- `parse_response::<T>`: decode the bytes, validate the envelope
against the request id, then deserialize the `result` value into the
declared return type; `serde_json::from_value::<T>` is abstracted as the
target type's decoding function `dec`. -/
def parse_response {R : Type} (dec : Json → Option R) (response : List Char)
    (expected_id : Nat) : Except ErrorKind R :=
  match get_response_as_map response with
  | .error e => .error e
  | .ok response_map =>
    match check_response_and_get_result response_map expected_id with
    | .error e => .error e
    | .ok result_json =>
      match dec result_json with
      | some r => .ok r
      | none => .error (.ResponseError "Result cannot deserialize to target type")

/-- The outcome of one `call_method` invocation: a typed result, a typed
error, or a panic (the `json!` macro's unwrap aborting the call). -/
inductive CallOutcome (R : Type) where
  | panicked : CallOutcome R
  | fail (e : ErrorKind) : CallOutcome R
  | ok (r : R) : CallOutcome R
  deriving DecidableEq

/-- A transport (`Transport<E>::send` taken with `&mut self`): a state
machine consuming raw request bytes and returning raw response bytes or
failing; the error value `E` is opaque to the engine and not modelled. -/
def TransportFn (s : Type) : Type := s → List Char → Option (List Char) × s

/-- `call_method`: build the envelope, serialize it, send it, parse the
response.  `serde_json::to_vec` on an already-built `Value` cannot fail,
so the `chain_err(SerializeError)` attached to it is unreachable; params
whose serialization fails instead make `format_request` panic (inside the
`json!` macro), before the transport is invoked. -/
def call_method {R s : Type} (dec : Json → Option R) (send : TransportFn s) (t : s)
    (id : Nat) (method : String) (params : Option Json) : CallOutcome R × s :=
  match format_request id method params with
  | none => (.panicked, t)
  | some request_json =>
    let request_raw := encodeJson request_json
    match send t request_raw with
    | (none, t') => (.fail .TransportError, t')
    | (some response_raw, t') =>
      match parse_response dec response_raw id with
      | .error e => (.fail e, t')
      | .ok r => (.ok r, t')

/-- A client struct generated by `jsonrpc_client!`: the owned transport
state and the `id` counter. -/
structure RpcClient (s : Type) where
  transport : s
  id : Nat

/-- `new`: wraps the transport, id counter starts at 0. -/
def RpcClient.new {s : Type} (t : s) : RpcClient s := ⟨t, 0⟩

/-- The body of a generated client method: `self.id += 1;
call_method(&mut self.transport, self.id, method, params)`. -/
def client_method_call {R s : Type} (dec : Json → Option R) (send : TransportFn s)
    (c : RpcClient s) (method : String) (params : Option Json) :
    CallOutcome R × RpcClient s :=
  let newId := c.id + 1
  let r := call_method dec send c.transport newId method params
  (r.1, ⟨r.2, newId⟩)

/-- A sequence of generated-method calls on one client, recording the id
placed in each request envelope (`client_method_call` hands exactly
`c.id + 1` to `call_method`, which hands it to `format_request`).  Each
call carries serializable arguments, so an envelope is built for every
call, whether or not the call itself succeeds. -/
def runCalls {R s : Type} (dec : Json → Option R) (send : TransportFn s) :
    List (String × Json) → RpcClient s → List Nat × RpcClient s
  | [], c => ([], c)
  | (method, p) :: calls, c =>
    let r := client_method_call dec send c method (some p)
    let rest := runCalls dec send calls r.2
    ((c.id + 1) :: rest.1, rest.2)

theorem runCalls_ids {R s : Type} (dec : Json → Option R) (send : TransportFn s) :
    ∀ (calls : List (String × Json)) (c : RpcClient s),
      (runCalls dec send calls c).1 = List.range' (c.id + 1) calls.length ∧
      (runCalls dec send calls c).2.id = c.id + calls.length := by
  intro calls
  induction calls with
  | nil =>
    intro c
    simp [runCalls, List.range']
  | cons mc calls ih =>
    intro c
    obtain ⟨method, p⟩ := mc
    have hid : (client_method_call dec send c method (some p)).2.id = c.id + 1 := rfl
    have h := ih (client_method_call dec send c method (some p)).2
    rw [hid] at h
    simp only [runCalls, List.length_cons, List.range'_succ]
    exact ⟨by rw [h.1], by rw [h.2]; omega⟩

/-- C1: starting from `new` (counter 0), a sequence of `n` generated
calls on one client places exactly the ids `1, 2, …, n` in the request
envelopes, in call order — the counter is bumped by exactly 1 before each
envelope is built, whatever the transport answers (`send` and its state
are universally quantified, so failing calls consume ids like successful
ones) — and the counter afterwards reads `n`. -/
theorem ids_are_one_to_n {R s : Type} (dec : Json → Option R) (send : TransportFn s)
    (t : s) (calls : List (String × Json)) :
    (runCalls dec send calls (RpcClient.new t)).1 = List.range' 1 calls.length ∧
    (runCalls dec send calls (RpcClient.new t)).2.id = calls.length := by
  have h := runCalls_ids dec send calls (RpcClient.new t)
  simpa [RpcClient.new] using h

/-- C7 (what the code actually does): params that fail to serialize make
`call_method` panic inside the `json!` macro before the transport is
invoked — the transport state comes back untouched for every transport —
and no `SerializeError` is produced; the `chain_err(SerializeError)` arm
is unreachable because `serde_json::to_vec` on an already-built `Value`
cannot fail. -/
theorem serialize_failure_panics_before_transport {R s : Type} (dec : Json → Option R)
    (send : TransportFn s) (t : s) (id : Nat) (method : String) :
    call_method dec send t id method none = (.panicked, t) ∧
    (call_method dec send t id method none).1 ≠ .fail .SerializeError :=
  ⟨rfl, by simp [call_method, format_request]⟩

/-- C8: undecodable response bytes fail before any envelope validation:
bytes that do not parse as JSON yield the not-valid-json `ResponseError`,
and bytes whose JSON value is not a top-level object yield the
not-an-object `ResponseError` — for every target type decoder and every
request id, so no later validation step influences the outcome. -/
theorem invalid_bytes_fail_first {R : Type} (dec : Json → Option R)
    (response : List Char) (eid : Nat) :
    (parseJson response = none →
      parse_response dec response eid =
        .error (.ResponseError "Response is not valid json")) ∧
    (∀ v, parseJson response = some v → (∀ fs, v ≠ Json.obj fs) →
      parse_response dec response eid =
        .error (.ResponseError "Response is not a json object")) := by
  constructor
  · intro h
    simp [parse_response, get_response_as_map, h]
  · intro v hv hno
    cases v with
    | obj fs => exact absurd rfl (hno fs)
    | null => simp [parse_response, get_response_as_map, hv]
    | bool b => simp [parse_response, get_response_as_map, hv]
    | num n => simp [parse_response, get_response_as_map, hv]
    | str st => simp [parse_response, get_response_as_map, hv]
    | arr xs => simp [parse_response, get_response_as_map, hv]

theorem invalid_bytes_fail_first_witness :
    parse_response (fun j => some j) "xyz".data 1 =
      .error (.ResponseError "Response is not valid json") ∧
    parse_response (fun j => some j) "42".data 1 =
      .error (.ResponseError "Response is not a json object") :=
  ⟨(invalid_bytes_fail_first (fun j => some j) "xyz".data 1).1 (by decide),
   (invalid_bytes_fail_first (fun j => some j) "42".data 1).2 (Json.num 42)
     (by decide) (fun fs h => Json.noConfusion h)⟩

/-- C9: unknown fields are never a reason for failure — a response whose
bytes parse to an object with the right version tag, the matching id, no
`error` entry, and a `result` the declared type decodes, yields that
decoded result whatever other fields the object carries (`m` is
arbitrary beyond the four lookups). -/
theorem extra_fields_ignored {R : Type} (dec : Json → Option R) (response : List Char)
    (m : JsonMap) (eid : Nat) (r : Json) (v : R)
    (hp : parseJson response = some (Json.obj m))
    (hv : lookupField "jsonrpc" m = some (Json.str "2.0"))
    (hid : lookupField "id" m = some (Json.num (eid : Int)))
    (herr : lookupField "error" m = none)
    (hres : lookupField "result" m = some r)
    (hdec : dec r = some v) :
    parse_response dec response eid = .ok v := by
  simp only [parse_response, get_response_as_map, hp]
  rw [check_response_eq_lookup_form, if_pos hv, if_pos hid, herr, hres]
  simp [hdec]

theorem extra_fields_ignored_witness :
    parse_response (fun j => some j)
        "\x7b\"jsonrpc\":\"2.0\",\"id\":1,\"result\":5,\"extra\":true\x7d".data 1 =
      .ok (Json.num 5) :=
  extra_fields_ignored (fun j => some j) _
    [("jsonrpc", Json.str "2.0"), ("id", Json.num 1), ("result", Json.num 5),
     ("extra", Json.bool true)] 1 (Json.num 5) (Json.num 5)
    (by decide) (by decide) (by decide) (by decide) (by decide) rfl

theorem char_ofNat_toNat (c : Char) : Char.ofNat c.toNat = c := by
  have hv : Nat.isValidChar c.toNat := c.valid
  unfold Char.ofNat
  rw [dif_pos hv]
  exact Char.eq_of_val_eq (UInt32.ext rfl)

theorem digitChar_digit {d : Nat} (h : d < 10) : isDigitChar (digitChar d) = true := by
  interval_cases d <;> decide

theorem digitVal_digitChar {d : Nat} (h : d < 10) : digitVal (digitChar d) = d := by
  interval_cases d <;> decide

theorem digitChar_ne_zero {d : Nat} (h1 : d < 10) (h2 : d ≠ 0) : digitChar d ≠ '0' := by
  interval_cases d
  · exact absurd rfl h2
  all_goals decide

theorem hexVal_hexDigitChar {d : Nat} (h : d < 16) : hexVal (hexDigitChar d) = some d := by
  interval_cases d <;> decide

theorem isDigit_toNat {c : Char} (h : isDigitChar c = true) :
    48 ≤ c.toNat ∧ c.toNat ≤ 57 := by
  simpa [isDigitChar] using h

theorem isDigit_not_ws {c : Char} (h : isDigitChar c = true) : isWsChar c = false := by
  have h2 := isDigit_toNat h
  simp [isWsChar]
  omega

theorem digit_excludes {c : Char} (h : isDigitChar c = true) :
    c ≠ '"' ∧ c ≠ '[' ∧ c ≠ '\x7b' ∧ c ≠ 't' ∧ c ≠ 'f' ∧ c ≠ 'n' ∧ c ≠ '-' := by
  refine ⟨?_, ?_, ?_, ?_, ?_, ?_, ?_⟩ <;>
    (intro he; subst he; exact absurd h (by decide))

theorem skipWs_not_ws {c : Char} {cs : List Char} (h : isWsChar c = false) :
    skipWs (c :: cs) = c :: cs := by
  simp [skipWs, h]

/-- The input ahead does not begin with a decimal digit (so a number
literal just before it ends exactly there). -/
def nonDigitStart (cs : List Char) : Prop :=
  ∀ c, cs.head? = some c → isDigitChar c = false

theorem natDigitsAux_all_digits :
    ∀ fuel n c, c ∈ natDigitsAux fuel n → isDigitChar c = true := by
  intro fuel
  induction fuel with
  | zero =>
    intro n c hc
    simp [natDigitsAux] at hc
  | succ f ih =>
    intro n c hc
    by_cases h : n < 10
    · simp [natDigitsAux, h] at hc
      subst hc
      exact digitChar_digit h
    · simp only [natDigitsAux, if_neg h, List.mem_append, List.mem_singleton] at hc
      cases hc with
      | inl h2 => exact ih _ _ h2
      | inr h2 =>
        subst h2
        exact digitChar_digit (Nat.mod_lt _ (by omega))

theorem natDigitsAux_ne_nil {fuel n : Nat} (h : 1 ≤ fuel) : natDigitsAux fuel n ≠ [] := by
  cases fuel with
  | zero => omega
  | succ f => by_cases h2 : n < 10 <;> simp [natDigitsAux, h2]

theorem natDigitsAux_head_ne_zero :
    ∀ fuel n, n ≠ 0 → n < 10 ^ fuel →
      ∀ c, (natDigitsAux fuel n).head? = some c → c ≠ '0' := by
  intro fuel
  induction fuel with
  | zero =>
    intro n h1 h2
    simp at h2
    omega
  | succ f ih =>
    intro n h1 h2 c hc
    by_cases h : n < 10
    · simp [natDigitsAux, h] at hc
      subst hc
      exact digitChar_ne_zero h h1
    · cases f with
      | zero =>
        rw [pow_one] at h2
        omega
      | succ f' =>
        rw [natDigitsAux, if_neg h] at hc
        obtain ⟨hd, tl, heq⟩ := List.exists_cons_of_ne_nil
          (@natDigitsAux_ne_nil (f' + 1) (n / 10) (by omega))
        rw [heq] at hc
        simp at hc
        subst hc
        refine ih (n / 10) (by omega) ?_ hd ?_
        · have hp : (10:Nat) ^ (f' + 1 + 1) = 10 ^ (f' + 1) * 10 := pow_succ 10 _
          have hp2 : (10:Nat) ^ (f' + 1) = 10 ^ f' * 10 := pow_succ 10 _
          omega
        · rw [heq]
          rfl

theorem digitsToNat_append_one (xs : List Char) (c : Char) :
    digitsToNat (xs ++ [c]) = 10 * digitsToNat xs + digitVal c := by
  simp [digitsToNat, List.foldl_append]

theorem digitsToNat_natDigitsAux :
    ∀ fuel n, n < 10 ^ fuel → digitsToNat (natDigitsAux fuel n) = n := by
  intro fuel
  induction fuel with
  | zero =>
    intro n h
    simp at h
    simp [natDigitsAux, digitsToNat, h]
  | succ f ih =>
    intro n h
    by_cases h1 : n < 10
    · simp [natDigitsAux, h1, digitsToNat, List.foldl]
      exact digitVal_digitChar h1
    · rw [natDigitsAux, if_neg h1, digitsToNat_append_one,
        ih (n / 10) (by
          have hp : (10:Nat) ^ (f + 1) = 10 ^ f * 10 := pow_succ 10 _
          omega),
        digitVal_digitChar (Nat.mod_lt _ (by omega))]
      omega

theorem nat_lt_pow_succ (n : Nat) : n < 10 ^ (n + 1) :=
  lt_of_lt_of_le (Nat.lt_pow_self (by omega) n)
    (Nat.pow_le_pow_right (by omega) (by omega))

theorem natDigits_all_digits {n : Nat} {c : Char} (h : c ∈ natDigits n) :
    isDigitChar c = true :=
  natDigitsAux_all_digits _ _ _ h

theorem natDigits_ne_nil (n : Nat) : natDigits n ≠ [] :=
  natDigitsAux_ne_nil (by omega)

theorem natDigits_head_ne_zero {n : Nat} (h : n ≠ 0) :
    ∀ c, (natDigits n).head? = some c → c ≠ '0' :=
  natDigitsAux_head_ne_zero _ n h (nat_lt_pow_succ n)

theorem digitsToNat_natDigits (n : Nat) : digitsToNat (natDigits n) = n :=
  digitsToNat_natDigitsAux _ n (nat_lt_pow_succ n)

theorem takeDigits_append (ds : List Char) (h : ∀ c ∈ ds, isDigitChar c = true) :
    ∀ rest, nonDigitStart rest → takeDigits (ds ++ rest) = (ds, rest) := by
  induction ds with
  | nil =>
    intro rest hrest
    cases rest with
    | nil => rfl
    | cons r rs =>
      have hr : isDigitChar r = false := hrest r rfl
      simp [takeDigits, hr]
  | cons d ds ih =>
    intro rest hrest
    have hd : isDigitChar d = true := h d (by simp)
    simp [takeDigits, hd, ih (fun c hc => h c (by simp [hc])) rest hrest]

theorem parseNatNum_natDigits (n : Nat) (rest : List Char) (hrest : nonDigitStart rest) :
    parseNatNum (natDigits n ++ rest) = some (n, rest) := by
  by_cases h0 : n = 0
  · subst h0
    have hz : natDigits 0 = ['0'] := rfl
    rw [hz]
    cases rest with
    | nil => rfl
    | cons r rs =>
      have hr : isDigitChar r = false := hrest r rfl
      simp [parseNatNum, hr]
  · obtain ⟨hd, tl, heq⟩ := List.exists_cons_of_ne_nil (natDigits_ne_nil n)
    have hhd : hd ≠ '0' := natDigits_head_ne_zero h0 hd (by rw [heq]; rfl)
    have hdig := takeDigits_append (natDigits n)
      (fun c hc => natDigits_all_digits hc) rest hrest
    rw [heq] at hdig
    rw [heq]
    simp only [List.cons_append, parseNatNum, if_neg hhd]
    rw [show hd :: (tl ++ rest) = (hd :: tl) ++ rest from rfl, hdig]
    have hval := digitsToNat_natDigits n
    rw [heq] at hval
    simp [hval]

theorem parseNumber_encodeInt (n : Int)
    (h1 : -9223372036854775808 ≤ n) (h2 : n < 18446744073709551616)
    (rest : List Char) (hrest : nonDigitStart rest) :
    parseNumber (encodeInt n ++ rest) = some (.num n, rest) := by
  by_cases hneg : n < 0
  · rw [encodeInt, if_pos hneg]
    simp only [List.cons_append, parseNumber, if_pos rfl]
    rw [parseNatNum_natDigits n.natAbs rest hrest]
    dsimp only
    rw [if_pos (And.intro (by omega) (by omega))]
    have habs : (n.natAbs : Int) = -n := Int.ofNat_natAbs_of_nonpos (by omega)
    rw [habs, neg_neg]
    simp
  · rw [encodeInt, if_neg hneg]
    obtain ⟨hd, tl, heq⟩ := List.exists_cons_of_ne_nil (natDigits_ne_nil n.toNat)
    have hhd : isDigitChar hd = true :=
      natDigits_all_digits (by rw [heq]; exact List.mem_cons_self hd tl)
    have hne : hd ≠ '-' := (digit_excludes hhd).2.2.2.2.2.2
    have hpn := parseNatNum_natDigits n.toNat rest hrest
    rw [heq] at hpn
    rw [heq]
    simp only [List.cons_append, parseNumber, if_neg hne]
    rw [show hd :: (tl ++ rest) = (hd :: tl) ++ rest from rfl, hpn]
    dsimp only
    have htn : ((n.toNat : Nat) : Int) = n := Int.toNat_of_nonneg (by omega)
    rw [htn, if_pos h2]

theorem parseStringBody_encode :
    ∀ (cs acc rest : List Char),
      parseStringBody (encodeStringBody cs ++ '"' :: rest) acc =
        some (String.mk (acc ++ cs), rest) := by
  intro cs
  induction cs with
  | nil =>
    intro acc rest
    simp [encodeStringBody, parseStringBody]
  | cons c cs ih =>
    intro acc rest
    rw [show encodeStringBody (c :: cs) = escapeChar c ++ encodeStringBody cs from rfl,
      List.append_assoc]
    simp only [escapeChar]
    by_cases h1 : c = '"'
    · subst h1
      rw [if_pos rfl,
        show parseStringBody ((['\\', '"'] : List Char) ++ (encodeStringBody cs ++ '"' :: rest))
            acc = parseStringBody (encodeStringBody cs ++ '"' :: rest) (acc ++ ['"']) from rfl,
        ih]
      simp
    · rw [if_neg h1]
      by_cases h2 : c = '\\'
      · subst h2
        rw [if_pos rfl,
          show parseStringBody ((['\\', '\\'] : List Char) ++ (encodeStringBody cs ++ '"' :: rest))
              acc = parseStringBody (encodeStringBody cs ++ '"' :: rest) (acc ++ ['\\']) from rfl,
          ih]
        simp
      · rw [if_neg h2]
        by_cases h3 : c = Char.ofNat 8
        · subst h3
          rw [if_pos rfl,
            show parseStringBody ((['\\', 'b'] : List Char) ++ (encodeStringBody cs ++ '"' :: rest))
                acc = parseStringBody (encodeStringBody cs ++ '"' :: rest)
                  (acc ++ [Char.ofNat 8]) from rfl,
            ih]
          simp
        · rw [if_neg h3]
          by_cases h4 : c = Char.ofNat 9
          · subst h4
            rw [if_pos rfl,
              show parseStringBody ((['\\', 't'] : List Char) ++ (encodeStringBody cs ++ '"' :: rest))
                  acc = parseStringBody (encodeStringBody cs ++ '"' :: rest)
                    (acc ++ [Char.ofNat 9]) from rfl,
              ih]
            simp
          · rw [if_neg h4]
            by_cases h5 : c = Char.ofNat 10
            · subst h5
              rw [if_pos rfl,
                show parseStringBody ((['\\', 'n'] : List Char) ++ (encodeStringBody cs ++ '"' :: rest))
                    acc = parseStringBody (encodeStringBody cs ++ '"' :: rest)
                      (acc ++ [Char.ofNat 10]) from rfl,
                ih]
              simp
            · rw [if_neg h5]
              by_cases h6 : c = Char.ofNat 12
              · subst h6
                rw [if_pos rfl,
                  show parseStringBody ((['\\', 'f'] : List Char) ++ (encodeStringBody cs ++ '"' :: rest))
                      acc = parseStringBody (encodeStringBody cs ++ '"' :: rest)
                        (acc ++ [Char.ofNat 12]) from rfl,
                  ih]
                simp
              · rw [if_neg h6]
                by_cases h7 : c = Char.ofNat 13
                · subst h7
                  rw [if_pos rfl,
                    show parseStringBody ((['\\', 'r'] : List Char) ++ (encodeStringBody cs ++ '"' :: rest))
                        acc = parseStringBody (encodeStringBody cs ++ '"' :: rest)
                          (acc ++ [Char.ofNat 13]) from rfl,
                    ih]
                  simp
                · rw [if_neg h7]
                  by_cases h8 : c.toNat < 32
                  · rw [if_pos h8]
                    have hx1 := hexVal_hexDigitChar (d := c.toNat / 16) (by omega)
                    have hx2 := hexVal_hexDigitChar (d := c.toNat % 16) (by omega)
                    rw [show (['\\', 'u', '0', '0', hexDigitChar (c.toNat / 16),
                        hexDigitChar (c.toNat % 16)] : List Char) ++
                          (encodeStringBody cs ++ '"' :: rest) =
                        '\\' :: 'u' :: '0' :: '0' :: hexDigitChar (c.toNat / 16) ::
                          hexDigitChar (c.toNat % 16) ::
                          (encodeStringBody cs ++ '"' :: rest) from rfl]
                    simp only [parseStringBody, hx1, hx2, show hexVal '0' = some 0 from rfl]
                    rw [if_pos (Or.inl (by omega)),
                      show (((0 * 16 + 0) * 16 + c.toNat / 16) * 16 + c.toNat % 16) = c.toNat
                        from by omega,
                      char_ofNat_toNat, ih]
                    simp
                  · rw [if_neg h8]
                    rw [show ([c] : List Char) ++ (encodeStringBody cs ++ '"' :: rest) =
                        c :: (encodeStringBody cs ++ '"' :: rest) from rfl]
                    have step : parseStringBody (c :: (encodeStringBody cs ++ '"' :: rest)) acc =
                        parseStringBody (encodeStringBody cs ++ '"' :: rest) (acc ++ [c]) := by
                      simp [parseStringBody, h1, h2, h8]
                    rw [step, ih]
                    simp

mutual

/-- The JSON values serde_json keeps in its exact-integer universe: every
number fits `i64` (negative) or `u64` (non-negative). -/
def serdeWF : Json → Bool
  | .null => true
  | .bool _ => true
  | .num n => decide (-9223372036854775808 ≤ n) && decide (n < 18446744073709551616)
  | .str _ => true
  | .arr xs => serdeWFItems xs
  | .obj fs => serdeWFFields fs

/-- `serdeWF` over the items of an array. -/
def serdeWFItems : List Json → Bool
  | [] => true
  | x :: xs => serdeWF x && serdeWFItems xs

/-- `serdeWF` over the values of an object. -/
def serdeWFFields : List (String × Json) → Bool
  | [] => true
  | (_, v) :: fs => serdeWF v && serdeWFFields fs

end

theorem digit_ne_rbracket {c : Char} (h : isDigitChar c = true) : c ≠ ']' := by
  intro he
  subst he
  exact absurd h (by decide)

theorem encode_head_facts (j : Json) :
    ∃ c cs', encodeJson j = c :: cs' ∧ isWsChar c = false ∧ c ≠ ']' := by
  cases j with
  | null => exact ⟨'n', ['u', 'l', 'l'], by decide, by decide, by decide⟩
  | bool b =>
    cases b with
    | true => exact ⟨'t', ['r', 'u', 'e'], by decide, by decide, by decide⟩
    | false => exact ⟨'f', ['a', 'l', 's', 'e'], by decide, by decide, by decide⟩
  | num n =>
    rw [show encodeJson (Json.num n) = encodeInt n from rfl, encodeInt]
    by_cases hneg : n < 0
    · rw [if_pos hneg]
      exact ⟨'-', _, rfl, by decide, by decide⟩
    · rw [if_neg hneg]
      obtain ⟨hd, tl, heq⟩ := List.exists_cons_of_ne_nil (natDigits_ne_nil n.toNat)
      have hdig : isDigitChar hd = true :=
        natDigits_all_digits (by rw [heq]; exact List.mem_cons_self hd tl)
      exact ⟨hd, tl, heq, isDigit_not_ws hdig, digit_ne_rbracket hdig⟩
  | str s => exact ⟨'"', _, rfl, by decide, by decide⟩
  | arr xs => exact ⟨'[', _, rfl, by decide, by decide⟩
  | obj fs => exact ⟨Char.ofNat 123, _, rfl, by decide, by decide⟩

theorem encode_ne_nil (j : Json) : encodeJson j ≠ [] := by
  obtain ⟨c, cs', heq, _, _⟩ := encode_head_facts j
  rw [heq]
  simp

theorem encode_length_pos (j : Json) : 0 < (encodeJson j).length :=
  List.length_pos.mpr (encode_ne_nil j)

theorem skipWs_encode (j : Json) (x : List Char) :
    skipWs (encodeJson j ++ x) = encodeJson j ++ x := by
  obtain ⟨c, cs', heq, hws, _⟩ := encode_head_facts j
  rw [heq, List.cons_append, skipWs_not_ws hws]

theorem nonDigitStart_cons {c : Char} (h : isDigitChar c = false) (r : List Char) :
    nonDigitStart (c :: r) := by
  intro d hd
  simp at hd
  subst hd
  exact h

theorem parseValue_to_parseNumber (f : Nat) (c : Char) (tl : List Char)
    (hws : isWsChar c = false) (h1 : c ≠ '"') (h2 : c ≠ '[') (h3 : c ≠ Char.ofNat 123)
    (h4 : c ≠ 't') (h5 : c ≠ 'f') (h6 : c ≠ 'n') :
    parseValue (f + 1) (c :: tl) = parseNumber (c :: tl) := by
  simp [parseValue, skipWs_not_ws hws, h1, h2, h3, h4, h5, h6]

theorem parseValue_array_step (f : Nat) (c2 : Char) (rest2 : List Char)
    (h1 : isWsChar c2 = false) (h2 : c2 ≠ ']') :
    parseValue (f + 1) ('[' :: c2 :: rest2) =
      (match parseItems f (c2 :: rest2) with
       | some (vs, rest') => some (.arr vs, rest')
       | none => none) := by
  simp [parseValue, show isWsChar '[' = false from rfl, skipWs, h1, h2]

theorem parseValue_object_step (f : Nat) (c2 : Char) (rest2 : List Char)
    (h1 : isWsChar c2 = false) (h2 : c2 ≠ Char.ofNat 125) :
    parseValue (f + 1) (Char.ofNat 123 :: c2 :: rest2) =
      (match parseFields f (c2 :: rest2) with
       | some (fs, rest') => some (.obj fs, rest')
       | none => none) := by
  simp [parseValue, show isWsChar (Char.ofNat 123) = false from rfl, skipWs, h1, h2]

theorem encodeItems_head (x : Json) (xs : List Json) :
    ∃ c cs', encodeItems (x :: xs) = c :: cs' ∧ isWsChar c = false ∧ c ≠ ']' := by
  obtain ⟨c, cs', heq, hws, hne⟩ := encode_head_facts x
  cases xs with
  | nil =>
    refine ⟨c, cs', ?_, hws, hne⟩
    rw [show encodeItems [x] = encodeJson x from rfl, heq]
  | cons y ys =>
    refine ⟨c, cs' ++ ',' :: encodeItems (y :: ys), ?_, hws, hne⟩
    rw [show encodeItems (x :: y :: ys) = encodeJson x ++ ',' :: encodeItems (y :: ys) from rfl,
      heq, List.cons_append]

theorem encodeItems_one (x : Json) : encodeItems [x] = encodeJson x := by
  simp [encodeItems]

theorem encodeItems_cons2 (x y : Json) (ys : List Json) :
    encodeItems (x :: y :: ys) = encodeJson x ++ ',' :: encodeItems (y :: ys) := by
  simp [encodeItems]

theorem encodeFields_one (k : String) (v : Json) :
    encodeFields [(k, v)] = encodeString k ++ ':' :: encodeJson v := by
  simp [encodeFields]

theorem encodeFields_cons2 (k : String) (v : Json) (kv' : String × Json)
    (fs' : List (String × Json)) :
    encodeFields ((k, v) :: kv' :: fs') =
      encodeString k ++ ':' :: encodeJson v ++ ',' :: encodeFields (kv' :: fs') := by
  simp [encodeFields]

theorem serdeWFItems_split {x : Json} {xs : List Json}
    (h : serdeWFItems (x :: xs) = true) :
    serdeWF x = true ∧ serdeWFItems xs = true := by
  rw [show serdeWFItems (x :: xs) = (serdeWF x && serdeWFItems xs) from by
    simp [serdeWFItems]] at h
  simpa [Bool.and_eq_true] using h

theorem serdeWFFields_split {k : String} {v : Json} {fs : List (String × Json)}
    (h : serdeWFFields ((k, v) :: fs) = true) :
    serdeWF v = true ∧ serdeWFFields fs = true := by
  rw [show serdeWFFields ((k, v) :: fs) = (serdeWF v && serdeWFFields fs) from by
    simp [serdeWFFields]] at h
  simpa [Bool.and_eq_true] using h

mutual

theorem rt_value : ∀ (j : Json) (fuel : Nat) (rest : List Char),
    serdeWF j = true → (encodeJson j).length < fuel → nonDigitStart rest →
    parseValue fuel (encodeJson j ++ rest) = some (j, rest)
  | .null, fuel, rest, _, hf, _ => by
    cases fuel with
    | zero => omega
    | succ f =>
      rw [(by decide : encodeJson .null = ['n', 'u', 'l', 'l'])]
      rfl
  | .bool true, fuel, rest, _, hf, _ => by
    cases fuel with
    | zero => omega
    | succ f =>
      rw [(by decide : encodeJson (.bool true) = ['t', 'r', 'u', 'e'])]
      rfl
  | .bool false, fuel, rest, _, hf, _ => by
    cases fuel with
    | zero => omega
    | succ f =>
      rw [(by decide : encodeJson (.bool false) = ['f', 'a', 'l', 's', 'e'])]
      rfl
  | .num n, fuel, rest, hwf, hf, hrest => by
    cases fuel with
    | zero => omega
    | succ f =>
      have hn : -9223372036854775808 ≤ n ∧ n < 18446744073709551616 := by
        simpa [serdeWF] using hwf
      have key := parseNumber_encodeInt n hn.1 hn.2 rest hrest
      rw [show encodeJson (.num n) = encodeInt n from rfl]
      rw [encodeInt] at key ⊢
      by_cases hneg : n < 0
      · rw [if_pos hneg] at key ⊢
        rw [List.cons_append] at key ⊢
        rw [parseValue_to_parseNumber f '-' _ (by decide) (by decide) (by decide) (by decide)
          (by decide) (by decide) (by decide)]
        exact key
      · rw [if_neg hneg] at key ⊢
        obtain ⟨hd, tl, heq⟩ := List.exists_cons_of_ne_nil (natDigits_ne_nil n.toNat)
        have hdig : isDigitChar hd = true :=
          natDigits_all_digits (by rw [heq]; exact List.mem_cons_self hd tl)
        obtain ⟨d1, d2, d3, d4, d5, d6, _⟩ := digit_excludes hdig
        rw [heq, List.cons_append] at key ⊢
        rw [parseValue_to_parseNumber f hd _ (isDigit_not_ws hdig) d1 d2 d3 d4 d5 d6]
        exact key
  | .str s, fuel, rest, _, hf, _ => by
    cases fuel with
    | zero => omega
    | succ f =>
      rw [show encodeJson (.str s) = '"' :: (encodeStringBody s.data ++ ['"']) from rfl,
        List.cons_append, List.append_assoc, List.singleton_append]
      rw [show parseValue (f + 1) ('"' :: (encodeStringBody s.data ++ '"' :: rest)) =
          (match parseStringBody (encodeStringBody s.data ++ '"' :: rest) [] with
           | some (s, rest') => some (.str s, rest')
           | none => none) from rfl]
      rw [parseStringBody_encode]
      rfl
  | .arr [], fuel, rest, _, hf, _ => by
    cases fuel with
    | zero => omega
    | succ f =>
      rw [(by decide : encodeJson (.arr []) = ['[', ']'])]
      rfl
  | .arr (x :: xs), fuel, rest, hwf, hf, _ => by
    cases fuel with
    | zero => omega
    | succ f =>
      have hwf' : serdeWFItems (x :: xs) = true := hwf
      have hlen : (encodeJson (.arr (x :: xs))).length =
          (encodeItems (x :: xs)).length + 2 := by
        rw [show encodeJson (.arr (x :: xs)) = '[' :: (encodeItems (x :: xs) ++ [']'])
          from rfl]
        simp
      obtain ⟨c2, cs2, heq2, hws2, hne2⟩ := encodeItems_head x xs
      have key := rt_items x xs f rest hwf' (by omega)
      rw [heq2, List.cons_append] at key
      rw [show encodeJson (.arr (x :: xs)) = '[' :: (encodeItems (x :: xs) ++ [']'])
          from rfl, List.cons_append, List.append_assoc, List.singleton_append, heq2,
        List.cons_append, parseValue_array_step f c2 _ hws2 hne2, key]
  | .obj [], fuel, rest, _, hf, _ => by
    cases fuel with
    | zero => omega
    | succ f =>
      rw [(by decide : encodeJson (.obj []) = [Char.ofNat 123, Char.ofNat 125])]
      rfl
  | .obj ((k, v) :: fs), fuel, rest, hwf, hf, _ => by
    cases fuel with
    | zero => omega
    | succ f =>
      have hwf' : serdeWFFields ((k, v) :: fs) = true := hwf
      have hlen : (encodeJson (.obj ((k, v) :: fs))).length =
          (encodeFields ((k, v) :: fs)).length + 2 := by
        rw [show encodeJson (.obj ((k, v) :: fs)) = Char.ofNat 123 ::
          (encodeFields ((k, v) :: fs) ++ [Char.ofNat 125]) from rfl]
        simp
      have hhead : ∃ K, encodeFields ((k, v) :: fs) = '"' :: K := by
        cases fs with
        | nil =>
          refine ⟨encodeStringBody k.data ++ ['"'] ++ ':' :: encodeJson v, ?_⟩
          rw [encodeFields_one, encodeString]
          simp [List.append_assoc]
        | cons kv' fs' =>
          refine ⟨encodeStringBody k.data ++ ['"'] ++ ':' :: encodeJson v ++
            ',' :: encodeFields (kv' :: fs'), ?_⟩
          rw [encodeFields_cons2, encodeString]
          simp [List.append_assoc]
      obtain ⟨K, heqK⟩ := hhead
      have key := rt_fields (k, v) fs f rest hwf' (by omega)
      rw [heqK, List.cons_append] at key
      rw [show encodeJson (.obj ((k, v) :: fs)) = Char.ofNat 123 ::
          (encodeFields ((k, v) :: fs) ++ [Char.ofNat 125]) from rfl, List.cons_append,
        List.append_assoc, List.singleton_append, heqK, List.cons_append,
        parseValue_object_step f '"' _ (by decide) (by decide), key]
termination_by j _ _ _ _ _ => sizeOf j

theorem rt_items : ∀ (x : Json) (xs : List Json) (fuel : Nat) (rest : List Char),
    serdeWFItems (x :: xs) = true → (encodeItems (x :: xs)).length + 1 < fuel →
    parseItems fuel (encodeItems (x :: xs) ++ ']' :: rest) = some (x :: xs, rest)
  | x, [], fuel, rest, hwf, hf => by
    cases fuel with
    | zero => omega
    | succ f =>
      have hwfx := (serdeWFItems_split hwf).1
      rw [encodeItems_one] at hf ⊢
      simp only [parseItems]
      rw [rt_value x f (']' :: rest) hwfx (by omega) (nonDigitStart_cons (by decide) _)]
      simp [skipWs_not_ws (show isWsChar ']' = false from by decide)]
  | x, y :: ys, fuel, rest, hwf, hf => by
    cases fuel with
    | zero => omega
    | succ f =>
      have hwfx := (serdeWFItems_split hwf).1
      have hwfr := (serdeWFItems_split hwf).2
      rw [encodeItems_cons2] at hf ⊢
      simp only [List.length_append, List.length_cons] at hf
      have hpos := encode_length_pos x
      rw [List.append_assoc, List.cons_append]
      simp only [parseItems]
      rw [rt_value x f (',' :: (encodeItems (y :: ys) ++ ']' :: rest)) hwfx (by omega)
        (nonDigitStart_cons (by decide) _)]
      have key := rt_items y ys f rest hwfr (by omega)
      simp [skipWs_not_ws (show isWsChar ',' = false from by decide), key]
termination_by x xs _ _ _ _ => sizeOf x + sizeOf xs

theorem rt_fields : ∀ (kv : String × Json) (fs : List (String × Json)) (fuel : Nat)
    (rest : List Char),
    serdeWFFields (kv :: fs) = true → (encodeFields (kv :: fs)).length + 1 < fuel →
    parseFields fuel (encodeFields (kv :: fs) ++ Char.ofNat 125 :: rest) =
      some (kv :: fs, rest)
  | (k, v), [], fuel, rest, hwf, hf => by
    cases fuel with
    | zero => omega
    | succ f =>
      have hwfv := (serdeWFFields_split hwf).1
      rw [encodeFields_one, encodeString] at hf ⊢
      simp only [List.length_append, List.length_cons] at hf
      simp only [List.append_assoc, List.cons_append, List.singleton_append]
      simp only [parseFields]
      rw [skipWs_not_ws (show isWsChar '"' = false from by decide)]
      have key := rt_value v f (Char.ofNat 125 :: rest) hwfv (by omega)
        (nonDigitStart_cons (by decide) _)
      simp [parseStringBody_encode, key,
        skipWs_not_ws (show isWsChar ':' = false from by decide),
        skipWs_not_ws (show isWsChar (Char.ofNat 125) = false from by decide),
        show String.mk ([] ++ k.data) = k from by simp]
  | (k, v), kv' :: fs', fuel, rest, hwf, hf => by
    cases fuel with
    | zero => omega
    | succ f =>
      have hwfv := (serdeWFFields_split hwf).1
      have hwfr := (serdeWFFields_split hwf).2
      rw [encodeFields_cons2, encodeString] at hf ⊢
      simp only [List.length_append, List.length_cons] at hf
      have hpos := encode_length_pos v
      simp only [List.append_assoc, List.cons_append, List.singleton_append]
      simp only [parseFields]
      rw [skipWs_not_ws (show isWsChar '"' = false from by decide)]
      have key := rt_value v f (',' :: (encodeFields (kv' :: fs') ++ Char.ofNat 125 :: rest))
        hwfv (by omega) (nonDigitStart_cons (by decide) _)
      have key2 := rt_fields kv' fs' f rest hwfr (by omega)
      simp [parseStringBody_encode, key, key2,
        skipWs_not_ws (show isWsChar ':' = false from by decide),
        skipWs_not_ws (show isWsChar ',' = false from by decide),
        show String.mk ([] ++ k.data) = k from by simp]
termination_by kv fs _ _ _ _ => sizeOf kv + sizeOf fs

end

/-- Top-level codec round trip: on the serde-exact integer universe,
parsing serde_json's compact rendering gives back the same value. -/
theorem parseJson_encodeJson {j : Json} (h : serdeWF j = true) :
    parseJson (encodeJson j) = some j := by
  unfold parseJson
  have key := rt_value j ((encodeJson j).length + 1) [] h (by omega)
    (fun c hc => by simp at hc)
  rw [List.append_nil] at key
  rw [key]
  simp [skipWs]

/-- C4: round trip of the request envelope.  For every method name, every
id in the `u64` range, and every serde-exact parameter value, the envelope
built by `format_request` serializes and parses back to itself, and the
parsed object's fields recover the protocol tag, the id, the method name,
and the parameters exactly (array parameters keep their order: the value
`P` is recovered as-is). -/
theorem request_encode_parse_round_trip (id : Nat) (M : String) (P : Json)
    (hid : (id : Int) < 18446744073709551616) (hP : serdeWF P = true) :
    ∃ m : JsonMap,
      format_request id M (some P) = some (Json.obj m) ∧
      parseJson (encodeJson (Json.obj m)) = some (Json.obj m) ∧
      lookupField "jsonrpc" m = some (Json.str "2.0") ∧
      lookupField "id" m = some (Json.num (id : Int)) ∧
      lookupField "method" m = some (Json.str M) ∧
      lookupField "params" m = some P := by
  refine ⟨[("jsonrpc", Json.str "2.0"), ("id", Json.num (id : Int)),
    ("method", Json.str M), ("params", P)], rfl, ?_, ?_, ?_, ?_, ?_⟩
  · refine parseJson_encodeJson ?_
    rw [show serdeWF (Json.obj [("jsonrpc", Json.str "2.0"), ("id", Json.num (id : Int)),
      ("method", Json.str M), ("params", P)]) =
        (serdeWF (Json.str "2.0") && (serdeWF (Json.num (id : Int)) &&
          (serdeWF (Json.str M) && (serdeWF P && true)))) from by
      simp [serdeWF, serdeWFFields]]
    simp only [serdeWF, Bool.and_eq_true, decide_eq_true_eq]
    refine ⟨trivial, ⟨⟨by omega, by omega⟩, trivial, hP, trivial⟩⟩
  · simp [lookupField]
  · simp [lookupField]
  · simp [lookupField]
  · simp [lookupField]

theorem request_encode_parse_round_trip_witness :
    ∃ m : JsonMap,
      format_request 7 "concat" (some (Json.arr [Json.str "Hello", Json.num 42])) =
        some (Json.obj m) ∧
      parseJson (encodeJson (Json.obj m)) = some (Json.obj m) ∧
      lookupField "jsonrpc" m = some (Json.str "2.0") ∧
      lookupField "id" m = some (Json.num ((7 : Nat) : Int)) ∧
      lookupField "method" m = some (Json.str "concat") ∧
      lookupField "params" m = some (Json.arr [Json.str "Hello", Json.num 42]) :=
  request_encode_parse_round_trip 7 "concat" (Json.arr [Json.str "Hello", Json.num 42])
    (by decide) (by decide)
